import Mathlib

/-!
# ProcessManager: ordered index, snapshot collection and command loop

Shallow embedding of `src/main.cpp`.

* `Processo`, `NoArvore`, `inserirNaArvore`, `imprimirOrdemDecrescente` embed the
  binary search tree keyed by `(memoria, pid)`.
* The operating system is a parameter (`Sistema`): what `CreateToolhelp32Snapshot`,
  `OpenProcess`, `GetProcessMemoryInfo` and `TerminateProcess` answer.  Every call to the
  operating system and every write to the console is recorded, in program order, as an
  `Evento`.
* `listaProcessos` and one iteration of the loop of `main` are embedded by explicit state
  passing: they return the list of events they perform (and, for `listaProcessos`, the final
  value of its local variable `raiz`).

`DWORD` and `SIZE_T` values are natural numbers; the program only compares them and divides
`memoria` by 1024, so no arithmetic can wrap.
-/

namespace ProcessManager

/-! ## Data model -/

/-- The `struct Processo` of the source: identifier, executable name, working-set size. -/
structure Processo where
  pid : Nat
  nome : String
  memoria : Nat
deriving DecidableEq, Repr

/-- The `struct NoArvore` of the source, with the null pointer as the constructor `nullptr`
and an allocated node as `no proc esquerda direita`. -/
inductive NoArvore where
  | nullptr : NoArvore
  | no (proc : Processo) (esquerda : NoArvore) (direita : NoArvore) : NoArvore
deriving DecidableEq, Repr

/-! ## The ordered index -/

/-- The function `inserirNaArvore(raiz, p)`: the reference parameter `raiz` is the argument and
the result is its value when the call returns. -/
def inserirNaArvore : NoArvore → Processo → NoArvore
  | NoArvore.nullptr, p => NoArvore.no p NoArvore.nullptr NoArvore.nullptr
  | NoArvore.no proc esquerda direita, p =>
    if p.memoria < proc.memoria then
      NoArvore.no proc (inserirNaArvore esquerda p) direita
    else if p.memoria > proc.memoria then
      NoArvore.no proc esquerda (inserirNaArvore direita p)
    else
      if p.pid < proc.pid then
        NoArvore.no proc (inserirNaArvore esquerda p) direita
      else if p.pid > proc.pid then
        NoArvore.no proc esquerda (inserirNaArvore direita p)
      else
        NoArvore.no proc esquerda direita

/-- The function `imprimirOrdemDecrescente(raiz)`: the records whose row is written to the
console, in the order in which they are written (right subtree, node, left subtree). The text
of each row is `Mensagem.linha` below. -/
def imprimirOrdemDecrescente : NoArvore → List Processo
  | NoArvore.nullptr => []
  | NoArvore.no proc esquerda direita =>
    imprimirOrdemDecrescente direita ++ [proc] ++ imprimirOrdemDecrescente esquerda

/-- The tree obtained by inserting the records of a list, one by one and in list order, into
an initially empty tree. -/
def inserirTodos (ps : List Processo) : NoArvore :=
  ps.foldl inserirNaArvore NoArvore.nullptr

/-! ## Specification vocabulary for the ordered index -/

/-- The comparison key `(memoria, pid)` of a record, in the lexicographic order of pairs. -/
def chave (p : Processo) : Nat ×ₗ Nat := toLex (p.memoria, p.pid)

/-- The records of a tree in ascending position: left subtree, node, right subtree. -/
def emOrdem : NoArvore → List Processo
  | NoArvore.nullptr => []
  | NoArvore.no proc esquerda direita => emOrdem esquerda ++ [proc] ++ emOrdem direita

/-- The search-tree ordering: at every node, every record of the left subtree has a key
strictly smaller than the key of the node and every record of the right subtree has a key
strictly larger. -/
def Ordenada : NoArvore → Prop
  | NoArvore.nullptr => True
  | NoArvore.no proc esquerda direita =>
    (∀ q ∈ emOrdem esquerda, chave q < chave proc) ∧
    (∀ q ∈ emOrdem direita, chave proc < chave q) ∧
    Ordenada esquerda ∧ Ordenada direita

/-- The trees reachable from the empty tree by insertions. -/
inductive Alcancavel : NoArvore → Prop
  | vazia : Alcancavel NoArvore.nullptr
  | passo (t : NoArvore) (p : Processo) : Alcancavel t → Alcancavel (inserirNaArvore t p)

/-- The records an index is asked to store, as the specification describes them: going through
the inserted records in order, a record is kept unless a record with the same
`(memoria, pid)` was kept before. -/
def registrosArmazenados (ps : List Processo) : List Processo :=
  ps.foldl (fun acc p => if chave p ∈ acc.map chave then acc else acc ++ [p]) []

/-- The ascending `(memoria, pid)` order of a list of records, as the specification describes
it: the list sorted by non-decreasing key. -/
def ordemAscendente (ps : List Processo) : List Processo :=
  ps.insertionSort (fun a b => chave a ≤ chave b)

/-! ## The operating system and the console -/

/-- The fields of `PROCESSENTRY32W` that the program reads. The executable name is kept as
text; the conversion of the wide string to UTF-8 changes its encoding only. -/
structure PROCESSENTRY32W where
  th32ProcessID : Nat
  szExeFile : String
deriving DecidableEq, Repr

/-- The access rights the program passes to `OpenProcess`. -/
inductive Acesso where
  | PROCESS_TERMINATE : Acesso
  | PROCESS_QUERY_INFORMATION_or_PROCESS_VM_READ : Acesso
deriving DecidableEq, Repr

/-- The values of type `HANDLE` that occur in the program: `NULL`, the handle of a snapshot
that `CreateToolhelp32Snapshot` created, and the handle of a process that `OpenProcess`
opened. -/
inductive HANDLE where
  | NULL : HANDLE
  | snapshot : HANDLE
  | processo (pid : Nat) : HANDLE
deriving DecidableEq, Repr

/-- The answers of the operating system during one refresh cycle.
`CreateToolhelp32Snapshot` is `none` when the call returns `INVALID_HANDLE_VALUE` and
otherwise the entries of the snapshot in enumeration order; `OpenProcess` tells whether a
process can be opened with an access right; `GetProcessMemoryInfo` is `some WorkingSetSize`
when the call returns `TRUE`; `TerminateProcess` tells whether the call succeeds. -/
structure Sistema where
  CreateToolhelp32Snapshot : Option (List PROCESSENTRY32W)
  OpenProcess : Acesso → Nat → Bool
  GetProcessMemoryInfo : Nat → Option Nat
  TerminateProcess : Nat → Bool

/-- Everything the program writes to `std::cout` or `std::cerr`. -/
inductive Mensagem where
  | erroSnapshot : Mensagem
  | erroAbrir (pid : Nat) : Mensagem
  | erroEncerrar (pid : Nat) : Mensagem
  | encerrado (pid : Nat) : Mensagem
  | erroMemoria (szExeFile : String) : Mensagem
  | erroPrimeiro : Mensagem
  | cabecalho : Mensagem
  | separador : Mensagem
  | linha (pid : Nat) (nome : String) (kb : Nat) : Mensagem
  | nenhumProcesso : Mensagem
  | pedeOpcao : Mensagem
  | pedePid : Mensagem
  | opcaoInvalida : Mensagem
deriving DecidableEq, Repr

/-- The effect of `std::left << std::setw(n)` on a text: blanks are added after it up to `n`
bytes; a longer text is left as it is. -/
def alinhaEsquerda (n : Nat) (t : String) : String :=
  t ++ String.mk (List.replicate (n - t.utf8ByteSize) ' ')

/-- The effect of `std::right << std::setw(n)` on a text: blanks are added before it up to `n`
bytes. -/
def alinhaDireita (n : Nat) (t : String) : String :=
  String.mk (List.replicate (n - t.utf8ByteSize) ' ') ++ t

/-- The text of each message, as the source writes it. In `erroMemoria` the source streams the
wide-character array `pe32.szExeFile` into the narrow stream `std::cerr`, which writes the
address of the array and not its content; `endereco` is the text of that address. -/
def Mensagem.texto (endereco : String) : Mensagem → String
  | Mensagem.erroSnapshot => "Erro ao criar snapshot de processos."
  | Mensagem.erroAbrir pid => "Erro ao abrir o processo com PID: " ++ toString pid
  | Mensagem.erroEncerrar pid => "Erro ao encerrar o processo com PID: " ++ toString pid
  | Mensagem.encerrado pid => "Processo com PID: " ++ toString pid ++ " encerrado com sucesso."
  | Mensagem.erroMemoria _ =>
    "Erro ao obter informações de memória do processo: " ++ endereco
  | Mensagem.erroPrimeiro => "Erro ao obter o primeiro processo."
  | Mensagem.cabecalho =>
    alinhaEsquerda 8 "PID" ++ alinhaEsquerda 35 "Nome do Processo" ++ alinhaDireita 12 "Memoria"
  | Mensagem.separador => String.mk (List.replicate 55 '-')
  | Mensagem.linha pid nome kb =>
    alinhaEsquerda 8 (toString pid) ++ alinhaEsquerda 35 nome
      ++ alinhaDireita 12 (toString kb) ++ " KB"
  | Mensagem.nenhumProcesso => "Nenhum processo encontrado."
  | Mensagem.pedeOpcao =>
    "\nPressione 1 para atualizar a lista de processos, 2 para encerrar um processo ou 0 para sair: "
  | Mensagem.pedePid => "Digite o PID do processo que deseja encerrar: "
  | Mensagem.opcaoInvalida => "Opção inválida. Tente novamente."

/-- The row that `imprimirOrdemDecrescente` writes for a record: `pid`, `nome` and
`memoria / 1024` followed by `KB`. -/
def linhaDe (p : Processo) : Mensagem :=
  Mensagem.linha p.pid p.nome (p.memoria / 1024)

/-- The observable actions of the program: calls to the operating system, with the handle or
identifier they are given, and writes to the console. -/
inductive Evento where
  | SetConsoleOutputCP : Evento
  | CreateToolhelp32Snapshot : Evento
  | Process32FirstW (h : HANDLE) : Evento
  | Process32NextW (h : HANDLE) : Evento
  | OpenProcess (acesso : Acesso) (pid : Nat) : Evento
  | GetProcessMemoryInfo (h : HANDLE) : Evento
  | TerminateProcess (h : HANDLE) : Evento
  | CloseHandle (h : HANDLE) : Evento
  | system_cls : Evento
  | cout (m : Mensagem) : Evento
  | cerr (m : Mensagem) : Evento
  | cin (valor : Int) : Evento
  | Sleep (ms : Nat) : Evento
deriving DecidableEq, Repr

/-! ## Operating-system glue -/

/-- The function `snapShotProcessos()`: the handle it returns and the events it performs. -/
def snapShotProcessos (s : Sistema) : HANDLE × List Evento :=
  match s.CreateToolhelp32Snapshot with
  | none => (HANDLE.NULL, [Evento.CreateToolhelp32Snapshot, Evento.cerr Mensagem.erroSnapshot])
  | some _ => (HANDLE.snapshot, [Evento.CreateToolhelp32Snapshot])

/-- The function `encerrarProcesso(pid)`: the events it performs. -/
def encerrarProcesso (s : Sistema) (pid : Nat) : List Evento :=
  if s.OpenProcess Acesso.PROCESS_TERMINATE pid = false then
    [Evento.OpenProcess Acesso.PROCESS_TERMINATE pid, Evento.cerr (Mensagem.erroAbrir pid)]
  else
    [Evento.OpenProcess Acesso.PROCESS_TERMINATE pid,
      Evento.TerminateProcess (HANDLE.processo pid),
      if s.TerminateProcess pid = false then Evento.cerr (Mensagem.erroEncerrar pid)
      else Evento.cout (Mensagem.encerrado pid),
      Evento.CloseHandle (HANDLE.processo pid)]

/-- The function `memoryInfo(pe32)`: the value it returns and the events it performs. -/
def memoryInfo (s : Sistema) (pe32 : PROCESSENTRY32W) : Nat × List Evento :=
  if s.OpenProcess Acesso.PROCESS_QUERY_INFORMATION_or_PROCESS_VM_READ pe32.th32ProcessID
      = false then
    (0, [Evento.OpenProcess Acesso.PROCESS_QUERY_INFORMATION_or_PROCESS_VM_READ
          pe32.th32ProcessID])
  else
    match s.GetProcessMemoryInfo pe32.th32ProcessID with
    | some WorkingSetSize =>
      (WorkingSetSize,
        [Evento.OpenProcess Acesso.PROCESS_QUERY_INFORMATION_or_PROCESS_VM_READ
          pe32.th32ProcessID,
         Evento.GetProcessMemoryInfo (HANDLE.processo pe32.th32ProcessID),
         Evento.CloseHandle (HANDLE.processo pe32.th32ProcessID)])
    | none =>
      (0,
        [Evento.OpenProcess Acesso.PROCESS_QUERY_INFORMATION_or_PROCESS_VM_READ
          pe32.th32ProcessID,
         Evento.GetProcessMemoryInfo (HANDLE.processo pe32.th32ProcessID),
         Evento.cerr (Mensagem.erroMemoria pe32.szExeFile),
         Evento.CloseHandle (HANDLE.processo pe32.th32ProcessID)])

/-- The call `Process32FirstW(h, &pe32)`: `none` when it returns `FALSE`, otherwise the entry
it stores in `pe32` together with the entries that `Process32NextW` will deliver afterwards.
The call fails on a handle that is not the handle of a snapshot (such as `NULL`) and on a
snapshot without entries. -/
def Process32FirstW (s : Sistema) (h : HANDLE) :
    Option (PROCESSENTRY32W × List PROCESSENTRY32W) :=
  match h, s.CreateToolhelp32Snapshot with
  | HANDLE.snapshot, some (pe32 :: restantes) => some (pe32, restantes)
  | _, _ => none

/-! ## Snapshot collection -/

/-- What `listaProcessos` leaves behind: the final value of its local variable `raiz`, the
arguments of its calls to `inserirNaArvore` in call order, and the events it performed. -/
structure Resultado where
  raiz : NoArvore
  inseridos : List Processo
  eventos : List Evento
deriving DecidableEq, Repr

/-- The `do ... while (Process32NextW(hSnapshot, &pe32))` loop of `listaProcessos`, started
with the entry `pe32`, the entries `restantes` still to be delivered by `Process32NextW`, and
the current tree `raiz`. The `continue` of the source jumps to the loop condition, so
`Process32NextW` is called after every entry. -/
def lacoProcessos (s : Sistema) (hSnapshot : HANDLE) (pe32 : PROCESSENTRY32W)
    (restantes : List PROCESSENTRY32W) (raiz : NoArvore) : Resultado :=
  let hmem := (memoryInfo s pe32).1
  let proc : Processo := Processo.mk pe32.th32ProcessID pe32.szExeFile hmem
  let raiz1 := if hmem = 0 then raiz else inserirNaArvore raiz proc
  let ins := if hmem = 0 then [] else [proc]
  let ev := (memoryInfo s pe32).2 ++ [Evento.Process32NextW hSnapshot]
  match restantes with
  | [] => Resultado.mk raiz1 ins ev
  | prox :: depois =>
    let r := lacoProcessos s hSnapshot prox depois raiz1
    Resultado.mk r.raiz (ins ++ r.inseridos) (ev ++ r.eventos)

/-- The function `listaProcessos()`. -/
def listaProcessos (s : Sistema) : Resultado :=
  let raiz := NoArvore.nullptr
  let hSnapshot := (snapShotProcessos s).1
  let ev0 := (snapShotProcessos s).2 ++ [Evento.Process32FirstW hSnapshot]
  match Process32FirstW s hSnapshot with
  | none =>
    Resultado.mk raiz []
      (ev0 ++ [Evento.cerr Mensagem.erroPrimeiro, Evento.CloseHandle hSnapshot])
  | some (pe32, restantes) =>
    let r := lacoProcessos s hSnapshot pe32 restantes raiz
    Resultado.mk r.raiz r.inseridos
      (ev0 ++ [Evento.system_cls, Evento.cout Mensagem.cabecalho,
          Evento.cout Mensagem.separador]
        ++ r.eventos
        ++ (if r.raiz = NoArvore.nullptr then [Evento.cout Mensagem.nenhumProcesso]
            else (imprimirOrdemDecrescente r.raiz).map (fun p => Evento.cout (linhaDe p)))
        ++ [Evento.CloseHandle hSnapshot])

/-! ## Command loop -/

/-- How one iteration of the `while(true)` loop of `main` ends: the loop goes on, or `main`
returns an exit code. -/
inductive Desfecho where
  | continua : Desfecho
  | retorna (codigo : Int) : Desfecho
deriving DecidableEq, Repr

/-- One iteration of the `while(true)` loop of `main`, where `option` is the integer read
from `std::cin` and `pid` the identifier read after command 2. -/
def iteracao (s : Sistema) (option : Int) (pid : Nat) : List Evento × Desfecho :=
  let ev := (listaProcessos s).eventos ++ [Evento.cout Mensagem.pedeOpcao, Evento.cin option]
  if option = 1 then
    (ev, Desfecho.continua)
  else if option = 2 then
    (ev ++ [Evento.cout Mensagem.pedePid, Evento.cin pid] ++ encerrarProcesso s pid
      ++ [Evento.Sleep 3000], Desfecho.continua)
  else if option = 0 then
    (ev, Desfecho.retorna 0)
  else
    (ev ++ [Evento.cout Mensagem.opcaoInvalida] ++ [Evento.Sleep 3000], Desfecho.continua)

/-- The input of one cycle: the state of the operating system during the cycle, the command
read and the identifier read if the command is 2. -/
structure Ciclo where
  sistema : Sistema
  option : Int
  pid : Nat

/-- The `while(true)` loop of `main` on a finite sequence of cycles: the events performed and
the exit code, or `none` if the loop is still running when the input ends. -/
def lacoPrincipal : List Ciclo → List Evento × Option Int
  | [] => ([], none)
  | c :: cs =>
    match (iteracao c.sistema c.option c.pid).2 with
    | Desfecho.retorna codigo => ((iteracao c.sistema c.option c.pid).1, some codigo)
    | Desfecho.continua =>
      ((iteracao c.sistema c.option c.pid).1 ++ (lacoPrincipal cs).1, (lacoPrincipal cs).2)

/-- The function `main()`. -/
def main (cs : List Ciclo) : List Evento × Option Int :=
  (Evento.SetConsoleOutputCP :: (lacoPrincipal cs).1, (lacoPrincipal cs).2)

/-- The events of a list that write to `std::cout`, including clearing the screen. -/
def saidaConsole (evs : List Evento) : List Evento :=
  evs.filter (fun e => match e with
    | Evento.cout _ => true
    | Evento.system_cls => true
    | _ => false)

/-- The handles on which `CloseHandle` is invoked, in call order. -/
def fechados (evs : List Evento) : List HANDLE :=
  evs.filterMap (fun e => match e with
    | Evento.CloseHandle h => some h
    | _ => none)

/-- The delays requested with `Sleep`, in call order. -/
def pausas (evs : List Evento) : List Nat :=
  evs.filterMap (fun e => match e with
    | Evento.Sleep ms => some ms
    | _ => none)

/-- The record that the loop of `listaProcessos` builds for an entry: its identifier, its name
and the value of `memoryInfo`. -/
def registroDe (s : Sistema) (pe32 : PROCESSENTRY32W) : Processo :=
  Processo.mk pe32.th32ProcessID pe32.szExeFile (memoryInfo s pe32).1

/-! ## Concrete inputs -/

/-- The records of the example of the specification: `(pid=10, mem=500)`,
`(pid=20, mem=1000)`, `(pid=5, mem=500)`. -/
def exemploRegistros : List Processo :=
  [Processo.mk 10 "a.exe" 500, Processo.mk 20 "b.exe" 1000, Processo.mk 5 "c.exe" 500]

/-- Three records with pairwise distinct identifiers and pairwise distinct memory values. -/
def exemploDistintos : List Processo :=
  [Processo.mk 10 "a.exe" 500, Processo.mk 20 "b.exe" 1000, Processo.mk 5 "c.exe" 700]

/-- An operating system in which `CreateToolhelp32Snapshot` fails. -/
def sistemaSemSnapshot : Sistema :=
  Sistema.mk none (fun _ _ => true) (fun _ => some 4096) (fun _ => true)

/-- An operating system whose snapshot has a single entry that cannot be opened for a memory
query. -/
def sistemaSoProtegido : Sistema :=
  Sistema.mk (some [PROCESSENTRY32W.mk 4 "System"]) (fun _ _ => false) (fun _ => none)
    (fun _ => false)

/-- An operating system whose snapshot is acquired but has no entry. -/
def sistemaSnapshotVazio : Sistema :=
  Sistema.mk (some []) (fun _ _ => true) (fun _ => some 4096) (fun _ => true)

/-- An operating system whose snapshot has a single entry that can be opened but whose memory
counters cannot be read. -/
def sistemaSemContadores : Sistema :=
  Sistema.mk (some [PROCESSENTRY32W.mk 4 "System"]) (fun _ _ => true) (fun _ => none)
    (fun _ => false)

/-- An operating system with three entries, the second of which cannot be opened:
identifier 4 is protected, identifiers 100 and 200 have working sets of 2048 and 8192
bytes. -/
def sistemaTres : Sistema :=
  Sistema.mk
    (some [PROCESSENTRY32W.mk 100 "a.exe", PROCESSENTRY32W.mk 4 "System",
      PROCESSENTRY32W.mk 200 "b.exe"])
    (fun _ pid => decide (pid ≠ 4))
    (fun pid => if pid = 100 then some 2048 else if pid = 200 then some 8192 else none)
    (fun _ => true)

/-! ## Lemmas on the ordered index -/

theorem chave_lt_iff (a b : Processo) :
    chave a < chave b ↔ a.memoria < b.memoria ∨ (a.memoria = b.memoria ∧ a.pid < b.pid) := by
  unfold chave
  rw [Prod.Lex.lt_iff]

theorem chave_eq_iff (a b : Processo) :
    chave a = chave b ↔ a.memoria = b.memoria ∧ a.pid = b.pid := by
  unfold chave
  constructor
  · intro h
    have h2 : (a.memoria, a.pid) = (b.memoria, b.pid) := toLex.injective h
    exact Prod.mk.inj h2
  · rintro ⟨h1, h2⟩
    rw [h1, h2]

/-- The three outcomes of the comparisons in `inserirNaArvore`, in terms of the key. -/
theorem inserirNaArvore_no (proc : Processo) (e d : NoArvore) (p : Processo) :
    inserirNaArvore (NoArvore.no proc e d) p =
      if chave p < chave proc then NoArvore.no proc (inserirNaArvore e p) d
      else if chave proc < chave p then NoArvore.no proc e (inserirNaArvore d p)
      else NoArvore.no proc e d := by
  simp only [inserirNaArvore, chave_lt_iff]
  by_cases h1 : p.memoria < proc.memoria
  · simp [h1]
  · by_cases h2 : p.memoria > proc.memoria
    · have h3 : ¬ proc.memoria = p.memoria := by omega
      have h4 : ¬ p.memoria = proc.memoria := by omega
      simp [h1, h2, h3, h4]
    · have h3 : p.memoria = proc.memoria := by omega
      have h4 : ¬ proc.memoria < p.memoria := by omega
      simp only [h1, h2, h3, h4, if_false, false_or, true_and, gt_iff_lt, lt_self_iff_false]

theorem imprimir_eq_reverse (t : NoArvore) :
    imprimirOrdemDecrescente t = (emOrdem t).reverse := by
  induction t with
  | nullptr => rfl
  | no proc e d ihe ihd =>
    simp [imprimirOrdemDecrescente, emOrdem, ihe, ihd]

theorem mem_emOrdem_inserir (t : NoArvore) (p q : Processo)
    (h : q ∈ emOrdem (inserirNaArvore t p)) : q ∈ emOrdem t ∨ q = p := by
  induction t with
  | nullptr => simpa [inserirNaArvore, emOrdem] using h
  | no proc e d ihe ihd =>
    rw [inserirNaArvore_no] at h
    split_ifs at h with h1 h2
    · simp only [emOrdem, List.mem_append, List.mem_singleton] at h ⊢
      rcases h with (h | h) | h
      · rcases ihe h with h | h
        · exact Or.inl (Or.inl (Or.inl h))
        · exact Or.inr h
      · exact Or.inl (Or.inl (Or.inr h))
      · exact Or.inl (Or.inr h)
    · simp only [emOrdem, List.mem_append, List.mem_singleton] at h ⊢
      rcases h with (h | h) | h
      · exact Or.inl (Or.inl (Or.inl h))
      · exact Or.inl (Or.inl (Or.inr h))
      · rcases ihd h with h | h
        · exact Or.inl (Or.inr h)
        · exact Or.inr h
    · exact Or.inl h

theorem ordenada_inserir (t : NoArvore) (p : Processo) (h : Ordenada t) :
    Ordenada (inserirNaArvore t p) := by
  induction t with
  | nullptr => simp [inserirNaArvore, Ordenada, emOrdem]
  | no proc e d ihe ihd =>
    obtain ⟨hl, hr, he, hd⟩ := h
    rw [inserirNaArvore_no]
    split_ifs with h1 h2
    · refine ⟨?_, hr, ihe he, hd⟩
      intro q hq
      rcases mem_emOrdem_inserir e p q hq with hq | hq
      · exact hl q hq
      · rw [hq]; exact h1
    · refine ⟨hl, ?_, he, ihd hd⟩
      intro q hq
      rcases mem_emOrdem_inserir d p q hq with hq | hq
      · exact hr q hq
      · rw [hq]; exact h2
    · exact ⟨hl, hr, he, hd⟩

theorem ordenada_inserirTodos_aux (ps : List Processo) (t : NoArvore) (h : Ordenada t) :
    Ordenada (ps.foldl inserirNaArvore t) := by
  induction ps generalizing t with
  | nil => exact h
  | cons p ps ih => exact ih _ (ordenada_inserir t p h)

theorem ordenada_inserirTodos (ps : List Processo) : Ordenada (inserirTodos ps) :=
  ordenada_inserirTodos_aux ps NoArvore.nullptr trivial

theorem ordenada_alcancavel (t : NoArvore) (h : Alcancavel t) : Ordenada t := by
  induction h with
  | vazia => trivial
  | passo t p _ ih => exact ordenada_inserir t p ih

theorem alcancavel_inserirTodos_aux (ps : List Processo) (t : NoArvore) (h : Alcancavel t) :
    Alcancavel (ps.foldl inserirNaArvore t) := by
  induction ps generalizing t with
  | nil => exact h
  | cons p ps ih => exact ih _ (Alcancavel.passo t p h)

theorem alcancavel_inserirTodos (ps : List Processo) : Alcancavel (inserirTodos ps) :=
  alcancavel_inserirTodos_aux ps NoArvore.nullptr Alcancavel.vazia

theorem alcancavel_iff (t : NoArvore) : Alcancavel t ↔ ∃ ps, t = inserirTodos ps := by
  constructor
  · intro h
    induction h with
    | vazia => exact ⟨[], rfl⟩
    | passo t p _ ih =>
      obtain ⟨ps, hps⟩ := ih
      exact ⟨ps ++ [p], by simp [inserirTodos, List.foldl_append, hps]⟩
  · rintro ⟨ps, rfl⟩
    exact alcancavel_inserirTodos ps

/-- In a tree with the search-tree ordering, the ascending walk has strictly increasing
keys. -/
theorem emOrdem_crescente (t : NoArvore) (h : Ordenada t) :
    (emOrdem t).Pairwise (fun a b => chave a < chave b) := by
  induction t with
  | nullptr => simp [emOrdem]
  | no proc e d ihe ihd =>
    obtain ⟨hl, hr, he, hd⟩ := h
    simp only [emOrdem, List.append_assoc, List.singleton_append]
    rw [List.pairwise_append]
    refine ⟨ihe he, ?_, ?_⟩
    · rw [List.pairwise_cons]
      exact ⟨hr, ihd hd⟩
    · intro a ha b hb
      rcases List.mem_cons.mp hb with hb | hb
      · rw [hb]; exact hl a ha
      · exact lt_trans (hl a ha) (hr b hb)

/-- Inserting a record whose key is already stored changes nothing. -/
theorem inserir_chave_presente (t : NoArvore) (p : Processo) (h : Ordenada t)
    (hp : ∃ q ∈ emOrdem t, chave q = chave p) : inserirNaArvore t p = t := by
  induction t with
  | nullptr => simp [emOrdem] at hp
  | no proc e d ihe ihd =>
    obtain ⟨hl, hr, he, hd⟩ := h
    obtain ⟨q, hq, hqp⟩ := hp
    rw [inserirNaArvore_no]
    simp only [emOrdem, List.mem_append, List.mem_singleton] at hq
    split_ifs with h1 h2
    · rcases hq with (hq | hq) | hq
      · rw [ihe he ⟨q, hq, hqp⟩]
      · rw [hq] at hqp; rw [hqp] at h1; exact absurd h1 (lt_irrefl _)
      · have := hr q hq; rw [hqp] at this; exact absurd (lt_trans h1 this) (lt_irrefl _)
    · rcases hq with (hq | hq) | hq
      · have := hl q hq; rw [hqp] at this; exact absurd (lt_trans h2 this) (lt_irrefl _)
      · rw [hq] at hqp; rw [hqp] at h2; exact absurd h2 (lt_irrefl _)
      · rw [ihd hd ⟨q, hq, hqp⟩]
    · rfl

/-- Inserting a record whose key is not stored adds exactly that record. -/
theorem inserir_chave_ausente (t : NoArvore) (p : Processo)
    (hp : ∀ q ∈ emOrdem t, chave q ≠ chave p) :
    (emOrdem (inserirNaArvore t p)).Perm (emOrdem t ++ [p]) := by
  induction t with
  | nullptr => simp [inserirNaArvore, emOrdem]
  | no proc e d ihe ihd =>
    rw [inserirNaArvore_no]
    have hpe : ∀ q ∈ emOrdem e, chave q ≠ chave p := fun q hq =>
      hp q (by simp [emOrdem, hq])
    have hpd : ∀ q ∈ emOrdem d, chave q ≠ chave p := fun q hq =>
      hp q (by simp [emOrdem, hq])
    have hpp : chave proc ≠ chave p := hp proc (by simp [emOrdem])
    split_ifs with h1 h2
    · simp only [emOrdem, List.append_assoc]
      refine ((ihe hpe).append_right _).trans ?_
      simp only [List.append_assoc]
      refine List.Perm.append_left _ ?_
      simp only [List.singleton_append]
      exact (List.perm_append_singleton p (proc :: emOrdem d)).symm
    · simp only [emOrdem, List.append_assoc]
      exact List.Perm.append_left _ (List.Perm.append_left _ (ihd hpd))
    · exfalso
      rcases lt_trichotomy (chave p) (chave proc) with h | h | h
      · exact h1 h
      · exact hpp h.symm
      · exact h2 h

theorem emOrdem_foldl_perm (ps : List Processo) (t : NoArvore) (l : List Processo)
    (ht : Ordenada t) (hl : (emOrdem t).Perm l) :
    (emOrdem (ps.foldl inserirNaArvore t)).Perm
      (ps.foldl (fun acc p => if chave p ∈ acc.map chave then acc else acc ++ [p]) l) := by
  induction ps generalizing t l with
  | nil => exact hl
  | cons p ps ih =>
    simp only [List.foldl_cons]
    by_cases hmem : chave p ∈ l.map chave
    · rw [if_pos hmem]
      obtain ⟨q, hq, hqp⟩ := List.mem_map.mp hmem
      rw [inserir_chave_presente t p ht ⟨q, hl.symm.subset hq, hqp⟩]
      exact ih t l ht hl
    · rw [if_neg hmem]
      refine ih _ _ (ordenada_inserir t p ht) ?_
      refine (inserir_chave_ausente t p ?_).trans (hl.append_right _)
      intro q hq hqp
      exact hmem (List.mem_map.mpr ⟨q, hl.subset hq, hqp⟩)

theorem emOrdem_inserirTodos_perm (ps : List Processo) :
    (emOrdem (inserirTodos ps)).Perm (registrosArmazenados ps) :=
  emOrdem_foldl_perm ps NoArvore.nullptr [] trivial (List.Perm.refl _)

theorem registros_foldl_nodup (ps acc : List Processo)
    (h : ((acc ++ ps).map chave).Nodup) :
    ps.foldl (fun acc p => if chave p ∈ acc.map chave then acc else acc ++ [p]) acc
      = acc ++ ps := by
  induction ps generalizing acc with
  | nil => simp
  | cons p ps ih =>
    simp only [List.foldl_cons]
    have hno : chave p ∉ acc.map chave := by
      intro hmem
      rw [List.map_append, List.map_cons] at h
      have := (List.nodup_append.mp h).2.2
      exact this hmem (List.mem_cons_self _ _)
    rw [if_neg hno]
    have h2 : (((acc ++ [p]) ++ ps).map chave).Nodup := by
      simpa [List.append_assoc] using h
    rw [ih _ h2]
    simp [List.append_assoc]

/-- With pairwise distinct keys every inserted record is stored. -/
theorem registros_eq_self (ps : List Processo) (h : (ps.map chave).Nodup) :
    registrosArmazenados ps = ps := by
  have := registros_foldl_nodup ps [] (by simpa using h)
  simpa [registrosArmazenados] using this

theorem chaves_nodup_of_pid (ps : List Processo) (h : (ps.map Processo.pid).Nodup) :
    (ps.map chave).Nodup := by
  have h2 : ps.map Processo.pid = (ps.map chave).map (fun k => (ofLex k).2) := by
    rw [List.map_map]
    rfl
  rw [h2] at h
  exact List.Nodup.of_map _ h

/-- The ascending walk of a tree built by insertions is the sorted list of the stored
records. -/
theorem emOrdem_inserirTodos_eq (ps : List Processo) :
    emOrdem (inserirTodos ps) = ordemAscendente (registrosArmazenados ps) := by
  have hcres := emOrdem_crescente (inserirTodos ps) (ordenada_inserirTodos ps)
  have hperm : (emOrdem (inserirTodos ps)).Perm (ordemAscendente (registrosArmazenados ps)) :=
    (emOrdem_inserirTodos_perm ps).trans (List.perm_insertionSort _ _).symm
  haveI : IsTotal Processo (fun a b => chave a ≤ chave b) := ⟨fun a b => le_total _ _⟩
  haveI : IsTrans Processo (fun a b => chave a ≤ chave b) := ⟨fun a b c => le_trans⟩
  haveI : IsAntisymm Processo (fun a b => chave a < chave b) :=
    ⟨fun a b h1 h2 => absurd (lt_trans h1 h2) (lt_irrefl _)⟩
  have hle : (ordemAscendente (registrosArmazenados ps)).Pairwise
      (fun a b => chave a ≤ chave b) :=
    List.sorted_insertionSort (fun a b => chave a ≤ chave b) (registrosArmazenados ps)
  have hne : (ordemAscendente (registrosArmazenados ps)).Pairwise
      (fun a b => chave a ≠ chave b) := by
    have h1 : (emOrdem (inserirTodos ps)).Pairwise (fun a b => chave a ≠ chave b) :=
      hcres.imp (fun h => ne_of_lt h)
    exact hperm.pairwise h1 (fun h => Ne.symm h)
  have hlt : (ordemAscendente (registrosArmazenados ps)).Pairwise
      (fun a b => chave a < chave b) :=
    hle.imp₂ (fun a b h1 h2 => lt_of_le_of_ne h1 h2) hne
  exact List.eq_of_perm_of_sorted hperm hcres hlt

theorem imprimir_decrescente (t : NoArvore) (h : Ordenada t) :
    ((imprimirOrdemDecrescente t).map chave).Sorted (fun a b => a > b) := by
  rw [imprimir_eq_reverse, List.map_reverse]
  have h1 : ((emOrdem t).map chave).Pairwise (fun a b => a < b) :=
    List.pairwise_map.mpr (emOrdem_crescente t h)
  exact List.pairwise_reverse.mpr h1

theorem mem_emOrdem_foldl (ps : List Processo) (t : NoArvore) (q : Processo)
    (h : q ∈ emOrdem (ps.foldl inserirNaArvore t)) : q ∈ emOrdem t ∨ q ∈ ps := by
  induction ps generalizing t with
  | nil => exact Or.inl h
  | cons p ps ih =>
    rcases ih _ h with h1 | h1
    · rcases mem_emOrdem_inserir t p q h1 with h2 | h2
      · exact Or.inl h2
      · exact Or.inr (by simp [h2])
    · exact Or.inr (List.mem_cons_of_mem _ h1)

theorem mem_imprimir_inserirTodos (ps : List Processo) (q : Processo)
    (h : q ∈ imprimirOrdemDecrescente (inserirTodos ps)) : q ∈ ps := by
  rw [imprimir_eq_reverse, List.mem_reverse] at h
  rcases mem_emOrdem_foldl ps NoArvore.nullptr q h with h1 | h1
  · simp [emOrdem] at h1
  · exact h1

/-! ## The ordered index: claims -/

/-- C1: for every list of records inserted one by one into an initially empty tree, the
records visited by `imprimirOrdemDecrescente` have strictly descending `(memoria, pid)` keys in
the lexicographic order, and the visit is exactly the reverse of the ascending order of the
stored records; inserting `(pid=10, mem=500)`, `(pid=20, mem=1000)`, `(pid=5, mem=500)` yields
`(20,1000)`, `(10,500)`, `(5,500)`. -/
theorem imprimir_inserirTodos_decrescente (ps : List Processo) :
    ((imprimirOrdemDecrescente (inserirTodos ps)).map chave).Sorted (fun a b => a > b)
    ∧ imprimirOrdemDecrescente (inserirTodos ps)
        = (ordemAscendente (registrosArmazenados ps)).reverse
    ∧ imprimirOrdemDecrescente (inserirTodos exemploRegistros)
        = [Processo.mk 20 "b.exe" 1000, Processo.mk 10 "a.exe" 500,
            Processo.mk 5 "c.exe" 500] := by
  refine ⟨imprimir_decrescente _ (ordenada_inserirTodos ps), ?_, ?_⟩
  · rw [imprimir_eq_reverse, emOrdem_inserirTodos_eq]
  · decide

/-- C2: for every list of records with pairwise distinct identifiers and pairwise distinct
memory values, inserted in list order into an empty tree, `imprimirOrdemDecrescente` visits as
many records as were inserted and the visited records are a permutation of the inserted ones,
without repeats. -/
theorem imprimir_inserirTodos_perm (ps : List Processo)
    (hpid : (ps.map Processo.pid).Nodup) (hmem : (ps.map Processo.memoria).Nodup) :
    (imprimirOrdemDecrescente (inserirTodos ps)).length = ps.length
    ∧ (imprimirOrdemDecrescente (inserirTodos ps)).Perm ps
    ∧ (imprimirOrdemDecrescente (inserirTodos ps)).Nodup := by
  have _ := hmem
  have hperm : (imprimirOrdemDecrescente (inserirTodos ps)).Perm ps := by
    rw [imprimir_eq_reverse]
    refine (List.reverse_perm _).trans ?_
    have h := emOrdem_inserirTodos_perm ps
    rwa [registros_eq_self ps (chaves_nodup_of_pid ps hpid)] at h
  refine ⟨hperm.length_eq, hperm, ?_⟩
  exact hperm.nodup_iff.mpr (List.Nodup.of_map _ hpid)

theorem imprimir_inserirTodos_perm_witness :
    ((exemploDistintos.map Processo.pid).Nodup
      ∧ (exemploDistintos.map Processo.memoria).Nodup)
    ∧ (imprimirOrdemDecrescente (inserirTodos exemploDistintos)).length
        = exemploDistintos.length
    ∧ (imprimirOrdemDecrescente (inserirTodos exemploDistintos)).Perm exemploDistintos
    ∧ (imprimirOrdemDecrescente (inserirTodos exemploDistintos)).Nodup :=
  ⟨⟨by decide, by decide⟩,
    imprimir_inserirTodos_perm exemploDistintos (by decide) (by decide)⟩

/-- C3: for every tree built by insertions and every record `p` whose `(memoria, pid)` equals
the key of a stored record, `inserirNaArvore` leaves the tree unchanged, whatever the name of
`p`; and inserting two records `a`, `b` with the same `(memoria, pid)` into an empty tree
leaves exactly one entry, the first. -/
theorem inserir_duplicado (ps : List Processo) (p a b : Processo)
    (hp : ∃ q ∈ imprimirOrdemDecrescente (inserirTodos ps),
      q.memoria = p.memoria ∧ q.pid = p.pid)
    (hab : a.memoria = b.memoria ∧ a.pid = b.pid) :
    inserirNaArvore (inserirTodos ps) p = inserirTodos ps
    ∧ inserirNaArvore (inserirNaArvore NoArvore.nullptr a) b
        = NoArvore.no a NoArvore.nullptr NoArvore.nullptr
    ∧ imprimirOrdemDecrescente (inserirTodos [a, b]) = [a] := by
  have h2 : inserirNaArvore (inserirNaArvore NoArvore.nullptr a) b
      = NoArvore.no a NoArvore.nullptr NoArvore.nullptr := by
    simp [inserirNaArvore, hab.1, hab.2]
  refine ⟨?_, h2, ?_⟩
  · obtain ⟨q, hq, hk⟩ := hp
    rw [imprimir_eq_reverse, List.mem_reverse] at hq
    exact inserir_chave_presente _ p (ordenada_inserirTodos ps)
      ⟨q, hq, (chave_eq_iff q p).mpr hk⟩
  · simp only [inserirTodos, List.foldl_cons, List.foldl_nil, h2]
    simp [imprimirOrdemDecrescente]

theorem inserir_duplicado_witness :
    (∃ q ∈ imprimirOrdemDecrescente (inserirTodos exemploRegistros),
        q.memoria = (Processo.mk 5 "outro.exe" 500).memoria
          ∧ q.pid = (Processo.mk 5 "outro.exe" 500).pid)
    ∧ inserirNaArvore (inserirTodos exemploRegistros) (Processo.mk 5 "outro.exe" 500)
        = inserirTodos exemploRegistros
    ∧ inserirNaArvore
          (inserirNaArvore NoArvore.nullptr (Processo.mk 7 "primeiro.exe" 300))
          (Processo.mk 7 "segundo.exe" 300)
        = NoArvore.no (Processo.mk 7 "primeiro.exe" 300) NoArvore.nullptr NoArvore.nullptr
    ∧ imprimirOrdemDecrescente
          (inserirTodos [Processo.mk 7 "primeiro.exe" 300, Processo.mk 7 "segundo.exe" 300])
        = [Processo.mk 7 "primeiro.exe" 300] :=
  ⟨⟨Processo.mk 5 "c.exe" 500, by decide, rfl, rfl⟩,
    inserir_duplicado exemploRegistros (Processo.mk 5 "outro.exe" 500)
      (Processo.mk 7 "primeiro.exe" 300) (Processo.mk 7 "segundo.exe" 300)
      ⟨Processo.mk 5 "c.exe" 500, by decide, rfl, rfl⟩ ⟨rfl, rfl⟩⟩

/-- C10: the search-tree ordering is an invariant of `inserirNaArvore`: if it holds for a
tree `t` it holds for `inserirNaArvore t p`, for every record `p`; hence every tree `u`
reachable from the empty tree by insertions satisfies it and holds no two records with the same
`(memoria, pid)`. -/
theorem ordenada_invariante (t : NoArvore) (p : Processo) (u : NoArvore)
    (ht : Ordenada t) (hu : Alcancavel u) :
    Ordenada (inserirNaArvore t p)
    ∧ Ordenada u
    ∧ (emOrdem u).Pairwise (fun a b => ¬ (a.memoria = b.memoria ∧ a.pid = b.pid)) := by
  refine ⟨ordenada_inserir t p ht, ordenada_alcancavel u hu, ?_⟩
  refine (emOrdem_crescente u (ordenada_alcancavel u hu)).imp ?_
  intro a b hlt heq
  rw [(chave_eq_iff a b).mpr heq] at hlt
  exact lt_irrefl _ hlt

theorem ordenada_invariante_witness :
    (Ordenada (NoArvore.no (Processo.mk 10 "a.exe" 500)
        (NoArvore.no (Processo.mk 5 "c.exe" 500) NoArvore.nullptr NoArvore.nullptr)
        NoArvore.nullptr)
      ∧ Alcancavel (inserirTodos exemploRegistros))
    ∧ Ordenada (inserirNaArvore (NoArvore.no (Processo.mk 10 "a.exe" 500)
        (NoArvore.no (Processo.mk 5 "c.exe" 500) NoArvore.nullptr NoArvore.nullptr)
        NoArvore.nullptr) (Processo.mk 20 "b.exe" 1000))
    ∧ Ordenada (inserirTodos exemploRegistros)
    ∧ (emOrdem (inserirTodos exemploRegistros)).Pairwise
        (fun a b => ¬ (a.memoria = b.memoria ∧ a.pid = b.pid)) :=
  ⟨⟨by simp [Ordenada, emOrdem, chave_lt_iff], alcancavel_inserirTodos exemploRegistros⟩,
    ordenada_invariante _ (Processo.mk 20 "b.exe" 1000) (inserirTodos exemploRegistros)
      (by simp [Ordenada, emOrdem, chave_lt_iff]) (alcancavel_inserirTodos exemploRegistros)⟩

/-! ## Lemmas on snapshot collection -/

theorem memoryInfo_saida (s : Sistema) (pe32 : PROCESSENTRY32W) :
    saidaConsole (memoryInfo s pe32).2 = [] := by
  unfold memoryInfo
  split_ifs
  · rfl
  · split <;> rfl

theorem memoryInfo_pausas (s : Sistema) (pe32 : PROCESSENTRY32W) :
    pausas (memoryInfo s pe32).2 = [] := by
  unfold memoryInfo
  split_ifs
  · rfl
  · split <;> rfl

theorem memoryInfo_fechados (s : Sistema) (pe32 : PROCESSENTRY32W) :
    ∀ h ∈ fechados (memoryInfo s pe32).2, h = HANDLE.processo pe32.th32ProcessID := by
  unfold memoryInfo
  split_ifs
  · simp [fechados]
  · split <;> simp [fechados]

theorem saidaConsole_append (a b : List Evento) :
    saidaConsole (a ++ b) = saidaConsole a ++ saidaConsole b := by
  simp [saidaConsole]

theorem pausas_append (a b : List Evento) : pausas (a ++ b) = pausas a ++ pausas b := by
  simp [pausas]

theorem fechados_append (a b : List Evento) :
    fechados (a ++ b) = fechados a ++ fechados b := by
  simp [fechados]

theorem laco_inseridos (s : Sistema) (h : HANDLE) (restantes : List PROCESSENTRY32W)
    (pe32 : PROCESSENTRY32W) (raiz : NoArvore) :
    (lacoProcessos s h pe32 restantes raiz).inseridos
      = ((pe32 :: restantes).filter (fun e => decide ((memoryInfo s e).1 ≠ 0))).map
          (registroDe s) := by
  induction restantes generalizing pe32 raiz with
  | nil =>
    by_cases hz : (memoryInfo s pe32).1 = 0 <;>
      simp [lacoProcessos, List.filter_cons, hz, registroDe]
  | cons prox depois ih =>
    rw [lacoProcessos]
    simp only [ih]
    by_cases hz : (memoryInfo s pe32).1 = 0 <;>
      simp [List.filter_cons, hz, registroDe]

theorem laco_raiz (s : Sistema) (h : HANDLE) (restantes : List PROCESSENTRY32W)
    (pe32 : PROCESSENTRY32W) (raiz : NoArvore) :
    (lacoProcessos s h pe32 restantes raiz).raiz
      = (lacoProcessos s h pe32 restantes raiz).inseridos.foldl inserirNaArvore raiz := by
  induction restantes generalizing pe32 raiz with
  | nil =>
    by_cases hz : (memoryInfo s pe32).1 = 0 <;> simp [lacoProcessos, hz]
  | cons prox depois ih =>
    rw [lacoProcessos]
    simp only [List.foldl_append]
    rw [ih]
    by_cases hz : (memoryInfo s pe32).1 = 0 <;> simp [hz]

theorem laco_saida (s : Sistema) (h : HANDLE) (restantes : List PROCESSENTRY32W)
    (pe32 : PROCESSENTRY32W) (raiz : NoArvore) :
    saidaConsole (lacoProcessos s h pe32 restantes raiz).eventos = [] := by
  induction restantes generalizing pe32 raiz with
  | nil =>
    simp only [lacoProcessos, saidaConsole_append, memoryInfo_saida]
    rfl
  | cons prox depois ih =>
    rw [lacoProcessos]
    simp only [saidaConsole_append, memoryInfo_saida, ih]
    rfl

theorem laco_pausas (s : Sistema) (h : HANDLE) (restantes : List PROCESSENTRY32W)
    (pe32 : PROCESSENTRY32W) (raiz : NoArvore) :
    pausas (lacoProcessos s h pe32 restantes raiz).eventos = [] := by
  induction restantes generalizing pe32 raiz with
  | nil =>
    simp only [lacoProcessos, pausas_append, memoryInfo_pausas]
    rfl
  | cons prox depois ih =>
    rw [lacoProcessos]
    simp only [pausas_append, memoryInfo_pausas, ih]
    rfl

theorem laco_fechados (s : Sistema) (h : HANDLE) (restantes : List PROCESSENTRY32W)
    (pe32 : PROCESSENTRY32W) (raiz : NoArvore) :
    ∀ x ∈ fechados (lacoProcessos s h pe32 restantes raiz).eventos,
      ∃ pid, x = HANDLE.processo pid := by
  induction restantes generalizing pe32 raiz with
  | nil =>
    intro x hx
    simp only [lacoProcessos, fechados_append, List.mem_append] at hx
    rcases hx with hx | hx
    · exact ⟨_, memoryInfo_fechados s pe32 x hx⟩
    · simp [fechados] at hx
  | cons prox depois ih =>
    intro x hx
    rw [lacoProcessos] at hx
    simp only [fechados_append, List.mem_append] at hx
    rcases hx with (hx | hx) | hx
    · exact ⟨_, memoryInfo_fechados s pe32 x hx⟩
    · simp [fechados] at hx
    · exact ih _ _ x hx

theorem laco_proximos (s : Sistema) (h : HANDLE) (restantes : List PROCESSENTRY32W)
    (pe32 : PROCESSENTRY32W) (raiz : NoArvore) :
    ((lacoProcessos s h pe32 restantes raiz).eventos.filter
        (fun e => decide (e = Evento.Process32NextW h))).length = restantes.length + 1 := by
  have hm : ∀ e : PROCESSENTRY32W, (memoryInfo s e).2.filter
      (fun e => decide (e = Evento.Process32NextW h)) = [] := by
    intro e
    unfold memoryInfo
    split_ifs
    · simp
    · split <;> simp
  induction restantes generalizing pe32 raiz with
  | nil => simp [lacoProcessos, List.filter_append, hm]
  | cons prox depois ih =>
    rw [lacoProcessos]
    simp [List.filter_append, hm, ih]

/-- The events of the loop: for every entry in turn, the events of `memoryInfo` followed by the
call of `Process32NextW`. -/
theorem laco_eventos (s : Sistema) (h : HANDLE) (restantes : List PROCESSENTRY32W)
    (pe32 : PROCESSENTRY32W) (raiz : NoArvore) :
    (lacoProcessos s h pe32 restantes raiz).eventos
      = (pe32 :: restantes).flatMap
          (fun e => (memoryInfo s e).2 ++ [Evento.Process32NextW h]) := by
  induction restantes generalizing pe32 raiz with
  | nil => simp [lacoProcessos]
  | cons prox depois ih =>
    rw [lacoProcessos]
    simp only [ih, List.flatMap_cons]

theorem listaProcessos_sucesso (s : Sistema) (pe32 : PROCESSENTRY32W)
    (restantes : List PROCESSENTRY32W)
    (h : s.CreateToolhelp32Snapshot = some (pe32 :: restantes)) :
    listaProcessos s =
      Resultado.mk (lacoProcessos s HANDLE.snapshot pe32 restantes NoArvore.nullptr).raiz
        (lacoProcessos s HANDLE.snapshot pe32 restantes NoArvore.nullptr).inseridos
        ([Evento.CreateToolhelp32Snapshot, Evento.Process32FirstW HANDLE.snapshot,
            Evento.system_cls, Evento.cout Mensagem.cabecalho, Evento.cout Mensagem.separador]
          ++ (lacoProcessos s HANDLE.snapshot pe32 restantes NoArvore.nullptr).eventos
          ++ (if (lacoProcessos s HANDLE.snapshot pe32 restantes NoArvore.nullptr).raiz
                = NoArvore.nullptr
              then [Evento.cout Mensagem.nenhumProcesso]
              else (imprimirOrdemDecrescente
                (lacoProcessos s HANDLE.snapshot pe32 restantes NoArvore.nullptr).raiz).map
                  (fun p => Evento.cout (linhaDe p)))
          ++ [Evento.CloseHandle HANDLE.snapshot]) := by
  simp [listaProcessos, snapShotProcessos, Process32FirstW, h]

theorem listaProcessos_sem_snapshot (s : Sistema) (h : s.CreateToolhelp32Snapshot = none) :
    listaProcessos s =
      Resultado.mk NoArvore.nullptr []
        [Evento.CreateToolhelp32Snapshot, Evento.cerr Mensagem.erroSnapshot,
          Evento.Process32FirstW HANDLE.NULL, Evento.cerr Mensagem.erroPrimeiro,
          Evento.CloseHandle HANDLE.NULL] := by
  simp [listaProcessos, snapShotProcessos, Process32FirstW, h]

theorem listaProcessos_sem_entrada (s : Sistema) (h : s.CreateToolhelp32Snapshot = some []) :
    listaProcessos s =
      Resultado.mk NoArvore.nullptr []
        [Evento.CreateToolhelp32Snapshot, Evento.Process32FirstW HANDLE.snapshot,
          Evento.cerr Mensagem.erroPrimeiro, Evento.CloseHandle HANDLE.snapshot] := by
  simp [listaProcessos, snapShotProcessos, Process32FirstW, h]

theorem listaProcessos_pausas (s : Sistema) : pausas (listaProcessos s).eventos = [] := by
  rcases hs : s.CreateToolhelp32Snapshot with _ | es
  · rw [listaProcessos_sem_snapshot s hs]; rfl
  · cases es with
    | nil => rw [listaProcessos_sem_entrada s hs]; rfl
    | cons pe32 restantes =>
      rw [listaProcessos_sucesso s pe32 restantes hs]
      simp only [pausas_append, laco_pausas]
      split_ifs
      · rfl
      · simp [pausas, List.filterMap_map]

/-- When the snapshot is acquired, `CloseHandle` is invoked on its handle exactly once, whether
or not a first entry exists; the other handles closed are process handles. -/
theorem snapshot_fechado_uma_vez (s : Sistema) (es : List PROCESSENTRY32W)
    (h : s.CreateToolhelp32Snapshot = some es) :
    (fechados (listaProcessos s).eventos).filter (fun x => decide (x = HANDLE.snapshot))
        = [HANDLE.snapshot]
    ∧ HANDLE.NULL ∉ fechados (listaProcessos s).eventos := by
  cases es with
  | nil => rw [listaProcessos_sem_entrada s h]; decide
  | cons pe32 restantes =>
    rw [listaProcessos_sucesso s pe32 restantes h]
    have hl := laco_fechados s HANDLE.snapshot restantes pe32 NoArvore.nullptr
    have hrows : ∀ l : List Processo,
        fechados (l.map (fun p => Evento.cout (linhaDe p))) = [] := by
      intro l
      induction l with
      | nil => rfl
      | cons a l ih => simp [fechados]
    have hfin : fechados
        (if (lacoProcessos s HANDLE.snapshot pe32 restantes NoArvore.nullptr).raiz
            = NoArvore.nullptr
          then [Evento.cout Mensagem.nenhumProcesso]
          else (imprimirOrdemDecrescente
            (lacoProcessos s HANDLE.snapshot pe32 restantes NoArvore.nullptr).raiz).map
              (fun p => Evento.cout (linhaDe p))) = [] := by
      split_ifs
      · rfl
      · exact hrows _
    have hf0 : (fechados (lacoProcessos s HANDLE.snapshot pe32 restantes
        NoArvore.nullptr).eventos).filter (fun x => decide (x = HANDLE.snapshot)) = [] := by
      rw [List.filter_eq_nil_iff]
      intro x hx
      obtain ⟨pid, hpid⟩ := hl x hx
      simp [hpid]
    constructor
    · simp only [fechados_append, hfin, List.filter_append, hf0]
      rfl
    · simp only [fechados_append, hfin, List.mem_append]
      intro hmem
      rcases hmem with ((hmem | hmem) | hmem) | hmem
      · simp [fechados] at hmem
      · obtain ⟨pid, hpid⟩ := hl _ hmem
        exact HANDLE.noConfusion hpid
      · simp at hmem
      · simp [fechados] at hmem

/-- On both failure paths the tree stays empty, nothing is inserted, nothing is written to
`std::cout`, the first-entry failure is reported on `std::cerr`, and `Process32NextW` is never
called. -/
theorem listaProcessos_falha (s : Sistema)
    (h : s.CreateToolhelp32Snapshot = none ∨ s.CreateToolhelp32Snapshot = some []) :
    (listaProcessos s).raiz = NoArvore.nullptr
    ∧ (listaProcessos s).inseridos = []
    ∧ saidaConsole (listaProcessos s).eventos = []
    ∧ Evento.cerr Mensagem.erroPrimeiro ∈ (listaProcessos s).eventos
    ∧ ∀ x, Evento.Process32NextW x ∉ (listaProcessos s).eventos := by
  rcases h with h | h
  · rw [listaProcessos_sem_snapshot s h]
    exact ⟨rfl, rfl, rfl, by decide, fun x => by simp⟩
  · rw [listaProcessos_sem_entrada s h]
    exact ⟨rfl, rfl, rfl, by decide, fun x => by simp⟩

theorem encerrarProcesso_pausas (s : Sistema) (pid : Nat) :
    pausas (encerrarProcesso s pid) = [] := by
  unfold encerrarProcesso
  split_ifs <;> rfl

theorem iteracao_desfecho (s : Sistema) (option : Int) (pid : Nat) :
    (iteracao s option pid).2
      = if option = 0 then Desfecho.retorna 0 else Desfecho.continua := by
  unfold iteracao
  split_ifs <;> first | rfl | omega

theorem lacoPrincipal_append (pre resto : List Ciclo) (hpre : ∀ x ∈ pre, x.option ≠ 0) :
    ∃ antes, (lacoPrincipal (pre ++ resto)).1 = antes ++ (lacoPrincipal resto).1 := by
  induction pre with
  | nil => exact ⟨[], rfl⟩
  | cons c cs ih =>
    obtain ⟨antes, hantes⟩ := ih (fun x hx => hpre x (List.mem_cons_of_mem _ hx))
    have hc : (iteracao c.sistema c.option c.pid).2 = Desfecho.continua := by
      rw [iteracao_desfecho, if_neg (hpre c (List.mem_cons_self _ _))]
    refine ⟨(iteracao c.sistema c.option c.pid).1 ++ antes, ?_⟩
    simp only [List.cons_append, lacoPrincipal, hc, List.append_eq, hantes, List.append_assoc]

/-! ## Snapshot collection and command loop: claims -/

/-- C4: when the first entry of the enumeration is obtained, the records that
`listaProcessos` inserts into the tree are exactly, in enumeration order, the records of the
entries whose `memoryInfo` is not zero; the tree is the result of these insertions, no record
of the index has memory 0, and `Process32NextW` is called once per entry, skipped or not. -/
theorem listaProcessos_exclui_zero (s : Sistema) (pe32 : PROCESSENTRY32W)
    (restantes : List PROCESSENTRY32W)
    (h : s.CreateToolhelp32Snapshot = some (pe32 :: restantes)) :
    (listaProcessos s).inseridos
        = ((pe32 :: restantes).filter (fun e => decide ((memoryInfo s e).1 ≠ 0))).map
            (registroDe s)
    ∧ (listaProcessos s).raiz = inserirTodos (listaProcessos s).inseridos
    ∧ (∀ p ∈ imprimirOrdemDecrescente (listaProcessos s).raiz, p.memoria ≠ 0)
    ∧ ((listaProcessos s).eventos.filter
        (fun e => decide (e = Evento.Process32NextW HANDLE.snapshot))).length
          = (pe32 :: restantes).length := by
  have hins := laco_inseridos s HANDLE.snapshot restantes pe32 NoArvore.nullptr
  have hraiz := laco_raiz s HANDLE.snapshot restantes pe32 NoArvore.nullptr
  have hprox := laco_proximos s HANDLE.snapshot restantes pe32 NoArvore.nullptr
  rw [listaProcessos_sucesso s pe32 restantes h]
  refine ⟨hins, hraiz, ?_, ?_⟩
  · intro p hp
    simp only at hp
    rw [hraiz] at hp
    have hmem := mem_imprimir_inserirTodos _ p hp
    rw [hins] at hmem
    obtain ⟨e, he, hep⟩ := List.mem_map.mp hmem
    have hne := (List.mem_filter.mp he).2
    rw [← hep]
    simpa [registroDe] using hne
  · simp only [List.filter_append, List.length_append, hprox]
    have hrows : ∀ l : List Processo, (l.map (fun p => Evento.cout (linhaDe p))).filter
        (fun e => decide (e = Evento.Process32NextW HANDLE.snapshot)) = [] := by
      intro l
      rw [List.filter_eq_nil_iff]
      intro e he
      obtain ⟨q, _, hq⟩ := List.mem_map.mp he
      simp [← hq]
    split_ifs
    · simp
    · simp [hrows]

theorem listaProcessos_exclui_zero_witness :
    sistemaTres.CreateToolhelp32Snapshot
        = some (PROCESSENTRY32W.mk 100 "a.exe"
            :: [PROCESSENTRY32W.mk 4 "System", PROCESSENTRY32W.mk 200 "b.exe"])
    ∧ (listaProcessos sistemaTres).inseridos
        = [Processo.mk 100 "a.exe" 2048, Processo.mk 200 "b.exe" 8192]
    ∧ (listaProcessos sistemaTres).inseridos
        = ((PROCESSENTRY32W.mk 100 "a.exe"
            :: [PROCESSENTRY32W.mk 4 "System", PROCESSENTRY32W.mk 200 "b.exe"]).filter
              (fun e => decide ((memoryInfo sistemaTres e).1 ≠ 0))).map (registroDe sistemaTres)
    ∧ (listaProcessos sistemaTres).raiz = inserirTodos (listaProcessos sistemaTres).inseridos
    ∧ (∀ p ∈ imprimirOrdemDecrescente (listaProcessos sistemaTres).raiz, p.memoria ≠ 0)
    ∧ ((listaProcessos sistemaTres).eventos.filter
        (fun e => decide (e = Evento.Process32NextW HANDLE.snapshot))).length
          = (PROCESSENTRY32W.mk 100 "a.exe"
            :: [PROCESSENTRY32W.mk 4 "System", PROCESSENTRY32W.mk 200 "b.exe"]).length :=
  ⟨rfl, by decide,
    listaProcessos_exclui_zero sistemaTres (PROCESSENTRY32W.mk 100 "a.exe")
      [PROCESSENTRY32W.mk 4 "System", PROCESSENTRY32W.mk 200 "b.exe"] rfl⟩

/-- C5, at the input where `CreateToolhelp32Snapshot` fails: `listaProcessos` invokes
`CloseHandle` once, on the `NULL` that `snapShotProcessos` returned, that is on a handle that
was never acquired. -/
theorem listaProcessos_fecha_NULL :
    sistemaSemSnapshot.CreateToolhelp32Snapshot = none
    ∧ (snapShotProcessos sistemaSemSnapshot).1 = HANDLE.NULL
    ∧ fechados (listaProcessos sistemaSemSnapshot).eventos = [HANDLE.NULL] := by
  decide

/-- C6, at the input where `CreateToolhelp32Snapshot` fails: `listaProcessos` reports the
failure and leaves the tree empty, but it does call `Process32FirstW` on the `NULL` handle
that `snapShotProcessos` returned. -/
theorem listaProcessos_enumera_NULL :
    (listaProcessos sistemaSemSnapshot).eventos
        = [Evento.CreateToolhelp32Snapshot, Evento.cerr Mensagem.erroSnapshot,
            Evento.Process32FirstW HANDLE.NULL, Evento.cerr Mensagem.erroPrimeiro,
            Evento.CloseHandle HANDLE.NULL]
    ∧ Evento.Process32FirstW HANDLE.NULL ∈ (listaProcessos sistemaSemSnapshot).eventos
    ∧ (listaProcessos sistemaSemSnapshot).raiz = NoArvore.nullptr := by
  decide

/-- C7 as stated fails: with a single entry of footprint 0 the index is empty, and the
console output is not the lone message: the header row and the separator line are written
before it. It also fails when the snapshot is not acquired or has no first entry: the index is
empty and the message that no process was found is not written at all. -/
theorem cabecalho_com_indice_vazio :
    ((listaProcessos sistemaSoProtegido).raiz = NoArvore.nullptr
      ∧ saidaConsole (listaProcessos sistemaSoProtegido).eventos
          ≠ [Evento.cout Mensagem.nenhumProcesso]
      ∧ Evento.cout Mensagem.cabecalho ∈ (listaProcessos sistemaSoProtegido).eventos
      ∧ Evento.cout Mensagem.separador ∈ (listaProcessos sistemaSoProtegido).eventos)
    ∧ ((listaProcessos sistemaSemSnapshot).raiz = NoArvore.nullptr
      ∧ saidaConsole (listaProcessos sistemaSemSnapshot).eventos
          ≠ [Evento.cout Mensagem.nenhumProcesso]
      ∧ Evento.cout Mensagem.nenhumProcesso ∉ (listaProcessos sistemaSemSnapshot).eventos)
    ∧ ((listaProcessos sistemaSnapshotVazio).raiz = NoArvore.nullptr
      ∧ saidaConsole (listaProcessos sistemaSnapshotVazio).eventos
          ≠ [Evento.cout Mensagem.nenhumProcesso]
      ∧ Evento.cout Mensagem.nenhumProcesso ∉ (listaProcessos sistemaSnapshotVazio).eventos) := by
  decide

/-- C7 amended: in a cycle whose enumeration yields a first entry, `listaProcessos` clears the
screen and writes the header row and the separator line before the enumeration loop, whether
or not a record is inserted later; the loop then performs, entry by entry, the events of
`memoryInfo` (which may write a diagnostic to `std::cerr` but nothing to `std::cout`) and the
call of `Process32NextW`; after the loop it writes the single message that no process was found
if the index is empty and otherwise one row per record of the descending walk, and closes the
snapshot. In a cycle whose snapshot is not acquired or has no first entry the index is empty
and nothing is written to `std::cout` (no header, no separator, no message): the failure is
reported on `std::cerr` only. -/
theorem saida_de_listaProcessos (s : Sistema) :
    match s.CreateToolhelp32Snapshot with
    | some (pe32 :: restantes) =>
      (listaProcessos s).eventos
          = [Evento.CreateToolhelp32Snapshot, Evento.Process32FirstW HANDLE.snapshot,
              Evento.system_cls, Evento.cout Mensagem.cabecalho,
              Evento.cout Mensagem.separador]
            ++ (pe32 :: restantes).flatMap
                (fun e => (memoryInfo s e).2 ++ [Evento.Process32NextW HANDLE.snapshot])
            ++ (if (listaProcessos s).raiz = NoArvore.nullptr
                then [Evento.cout Mensagem.nenhumProcesso]
                else (imprimirOrdemDecrescente (listaProcessos s).raiz).map
                  (fun p => Evento.cout (linhaDe p)))
            ++ [Evento.CloseHandle HANDLE.snapshot]
      ∧ saidaConsole ((pe32 :: restantes).flatMap
          (fun e => (memoryInfo s e).2 ++ [Evento.Process32NextW HANDLE.snapshot])) = []
      ∧ saidaConsole (listaProcessos s).eventos
          = [Evento.system_cls, Evento.cout Mensagem.cabecalho,
              Evento.cout Mensagem.separador]
            ++ (if (listaProcessos s).raiz = NoArvore.nullptr
                then [Evento.cout Mensagem.nenhumProcesso]
                else (imprimirOrdemDecrescente (listaProcessos s).raiz).map
                  (fun p => Evento.cout (linhaDe p)))
    | _ =>
      (listaProcessos s).raiz = NoArvore.nullptr
      ∧ saidaConsole (listaProcessos s).eventos = []
      ∧ (listaProcessos s).eventos.filter
            (fun e => decide (e = Evento.cerr Mensagem.erroPrimeiro))
          = [Evento.cerr Mensagem.erroPrimeiro] := by
  split
  · rename_i pe32 restantes hs
    have hrows : ∀ l : List Processo, saidaConsole (l.map (fun p => Evento.cout (linhaDe p)))
        = l.map (fun p => Evento.cout (linhaDe p)) := by
      intro l
      unfold saidaConsole
      rw [List.filter_eq_self]
      intro e he
      obtain ⟨q, _, hq⟩ := List.mem_map.mp he
      rw [← hq]
    have hlaco := laco_eventos s HANDLE.snapshot restantes pe32 NoArvore.nullptr
    have hsaida := laco_saida s HANDLE.snapshot restantes pe32 NoArvore.nullptr
    rw [hlaco] at hsaida
    rw [listaProcessos_sucesso s pe32 restantes hs]
    refine ⟨?_, hsaida, ?_⟩
    · rw [hlaco]
    · simp only [saidaConsole_append, laco_saida]
      split_ifs
      · rfl
      · rw [hrows]
        simp [saidaConsole]
  · rename_i hne
    have hcases : s.CreateToolhelp32Snapshot = none ∨ s.CreateToolhelp32Snapshot = some [] := by
      rcases hs : s.CreateToolhelp32Snapshot with _ | es
      · exact Or.inl rfl
      · cases es with
        | nil => exact Or.inr rfl
        | cons a l => exact absurd hs (hne a l)
    rcases hcases with hs | hs
    · rw [listaProcessos_sem_snapshot s hs]
      decide
    · rw [listaProcessos_sem_entrada s hs]
      decide

theorem saida_de_listaProcessos_witness :
    ((listaProcessos sistemaSemContadores).eventos
        = [Evento.CreateToolhelp32Snapshot, Evento.Process32FirstW HANDLE.snapshot,
            Evento.system_cls, Evento.cout Mensagem.cabecalho, Evento.cout Mensagem.separador,
            Evento.OpenProcess Acesso.PROCESS_QUERY_INFORMATION_or_PROCESS_VM_READ 4,
            Evento.GetProcessMemoryInfo (HANDLE.processo 4),
            Evento.cerr (Mensagem.erroMemoria "System"),
            Evento.CloseHandle (HANDLE.processo 4),
            Evento.Process32NextW HANDLE.snapshot,
            Evento.cout Mensagem.nenhumProcesso,
            Evento.CloseHandle HANDLE.snapshot]
      ∧ saidaConsole (listaProcessos sistemaSemContadores).eventos
        = [Evento.system_cls, Evento.cout Mensagem.cabecalho, Evento.cout Mensagem.separador,
            Evento.cout Mensagem.nenhumProcesso])
    ∧ ((listaProcessos sistemaSemSnapshot).raiz = NoArvore.nullptr
      ∧ saidaConsole (listaProcessos sistemaSemSnapshot).eventos = []
      ∧ (listaProcessos sistemaSemSnapshot).eventos.filter
            (fun e => decide (e = Evento.cerr Mensagem.erroPrimeiro))
          = [Evento.cerr Mensagem.erroPrimeiro]) :=
  ⟨⟨(saida_de_listaProcessos sistemaSemContadores).1.trans (by decide),
      (saida_de_listaProcessos sistemaSemContadores).2.2.trans (by decide)⟩,
    saida_de_listaProcessos sistemaSemSnapshot⟩

/-- C8: in a cycle of the command loop that is reached (no earlier command was 0) and whose
command is 2, the loop prompts for an identifier and runs `encerrarProcesso` with exactly the
identifier read, whatever the snapshot and hence the index of that cycle: the first action is
`OpenProcess` with `PROCESS_TERMINATE` on that identifier, and the events of
`encerrarProcesso` do not depend on the snapshot. -/
theorem encerrar_sem_consultar_indice (pre post : List Ciclo) (c : Ciclo)
    (hpre : ∀ x ∈ pre, x.option ≠ 0) (hc : c.option = 2) :
    (iteracao c.sistema c.option c.pid).1
        = (listaProcessos c.sistema).eventos
          ++ [Evento.cout Mensagem.pedeOpcao, Evento.cin 2, Evento.cout Mensagem.pedePid,
              Evento.cin c.pid]
          ++ encerrarProcesso c.sistema c.pid ++ [Evento.Sleep 3000]
    ∧ (encerrarProcesso c.sistema c.pid).head?
        = some (Evento.OpenProcess Acesso.PROCESS_TERMINATE c.pid)
    ∧ (∀ snap, encerrarProcesso (Sistema.mk snap c.sistema.OpenProcess
          c.sistema.GetProcessMemoryInfo c.sistema.TerminateProcess) c.pid
        = encerrarProcesso c.sistema c.pid)
    ∧ ∃ antes depois, (main (pre ++ c :: post)).1
        = antes ++ encerrarProcesso c.sistema c.pid ++ depois := by
  have hit : (iteracao c.sistema c.option c.pid).1
        = (listaProcessos c.sistema).eventos
          ++ [Evento.cout Mensagem.pedeOpcao, Evento.cin 2, Evento.cout Mensagem.pedePid,
              Evento.cin c.pid]
          ++ encerrarProcesso c.sistema c.pid ++ [Evento.Sleep 3000] := by
    rw [hc]
    simp [iteracao]
  refine ⟨hit, ?_, ?_, ?_⟩
  · unfold encerrarProcesso
    split_ifs <;> rfl
  · intro snap
    rfl
  · obtain ⟨antes, hantes⟩ := lacoPrincipal_append pre (c :: post) hpre
    have hd : (iteracao c.sistema c.option c.pid).2 = Desfecho.continua := by
      rw [iteracao_desfecho, hc]
      rfl
    refine ⟨Evento.SetConsoleOutputCP :: antes ++ ((listaProcessos c.sistema).eventos
        ++ [Evento.cout Mensagem.pedeOpcao, Evento.cin 2, Evento.cout Mensagem.pedePid,
          Evento.cin c.pid]), [Evento.Sleep 3000] ++ (lacoPrincipal post).1, ?_⟩
    simp only [main, hantes, lacoPrincipal, hd, hit, List.append_assoc, List.cons_append]

theorem encerrar_sem_consultar_indice_witness :
    ((∀ x ∈ [Ciclo.mk sistemaSoProtegido 1 0], x.option ≠ 0)
      ∧ (Ciclo.mk sistemaTres 2 999).option = 2
      ∧ ∀ p ∈ imprimirOrdemDecrescente (listaProcessos sistemaTres).raiz, p.pid ≠ 999)
    ∧ (encerrarProcesso sistemaTres 999).head?
        = some (Evento.OpenProcess Acesso.PROCESS_TERMINATE 999)
    ∧ ∃ antes depois,
        (main ([Ciclo.mk sistemaSoProtegido 1 0] ++ Ciclo.mk sistemaTres 2 999 :: [])).1
          = antes ++ encerrarProcesso sistemaTres 999 ++ depois :=
  ⟨⟨by decide, rfl, by decide⟩,
    (encerrar_sem_consultar_indice [Ciclo.mk sistemaSoProtegido 1 0] []
      (Ciclo.mk sistemaTres 2 999) (by decide) rfl).2.1,
    (encerrar_sem_consultar_indice [Ciclo.mk sistemaSoProtegido 1 0] []
      (Ciclo.mk sistemaTres 2 999) (by decide) rfl).2.2.2⟩

/-- C9: for every integer command, one iteration of the loop requests the fixed delay
`Sleep(3000)` exactly once, as its last action, if the command is neither 1 nor 0, and not at
all otherwise; command 0 makes `main` return 0 and every other command continues the loop; a
command other than 0, 1 and 2 is reported as an invalid option. -/
theorem pausa_por_comando (s : Sistema) (option : Int) (pid : Nat) :
    pausas (iteracao s option pid).1 = (if option = 1 ∨ option = 0 then [] else [3000])
    ∧ (iteracao s option pid).1.getLast?
        = some (if option = 1 ∨ option = 0 then Evento.cin option else Evento.Sleep 3000)
    ∧ (iteracao s option pid).2
        = (if option = 0 then Desfecho.retorna 0 else Desfecho.continua)
    ∧ (iteracao s option pid).1
        = (listaProcessos s).eventos ++ [Evento.cout Mensagem.pedeOpcao, Evento.cin option]
          ++ (if option = 1 ∨ option = 0 then []
              else if option = 2 then
                [Evento.cout Mensagem.pedePid, Evento.cin pid] ++ encerrarProcesso s pid
                  ++ [Evento.Sleep 3000]
              else [Evento.cout Mensagem.opcaoInvalida, Evento.Sleep 3000]) := by
  have hev : (iteracao s option pid).1
        = (listaProcessos s).eventos ++ [Evento.cout Mensagem.pedeOpcao, Evento.cin option]
          ++ (if option = 1 ∨ option = 0 then []
              else if option = 2 then
                [Evento.cout Mensagem.pedePid, Evento.cin pid] ++ encerrarProcesso s pid
                  ++ [Evento.Sleep 3000]
              else [Evento.cout Mensagem.opcaoInvalida, Evento.Sleep 3000]) := by
    unfold iteracao
    by_cases h1 : option = 1
    · simp [h1]
    · by_cases h2 : option = 2
      · simp [h2]
      · by_cases h0 : option = 0
        · simp [h0]
        · simp [h1, h2, h0]
  refine ⟨?_, ?_, iteracao_desfecho s option pid, hev⟩
  · rw [hev]
    simp only [pausas_append, listaProcessos_pausas]
    split_ifs
    · rfl
    · simp only [pausas_append, encerrarProcesso_pausas]
      rfl
    · rfl
  · rw [hev]
    split_ifs
    · simp
    · simp only [← List.append_assoc]
      exact List.getLast?_concat _
    · simp

end ProcessManager
